import Mathlib

/- Verification of the card-generator application (cards_llm.py): template
   parsing, placeholder replacement, the LLM call, response-tag extraction and
   the GUI event handlers, shallowly embedded over List Char. -/

namespace CardsLLM

/-- Whitespace test used to model Python str.strip (ASCII fragment). -/
def isWs (c : Char) : Bool := c.isWhitespace

/-- Model of Python str.strip: drop whitespace from both ends. -/
def trimChars (s : List Char) : List Char :=
  ((s.dropWhile isWs).reverse.dropWhile isWs).reverse

/-- Scanning pass of Python str.replace(old, new) with explicit fuel (one unit
per examined position; the initial length of the string always suffices for a
non-empty old).  Scans left to right, replaces each non-overlapping occurrence
of old, and never re-scans the freshly inserted new within the same call. -/
def replaceGo (old new : List Char) (fuel : Nat) (s : List Char) : List Char :=
  match s with
  | [] => []
  | c :: rest =>
    match fuel with
    | 0 => c :: rest
    | fuel' + 1 =>
      if old.isPrefixOf (c :: rest) then
        new ++ replaceGo old new fuel' ((c :: rest).drop old.length)
      else
        c :: replaceGo old new fuel' rest

/-- Python s.replace(old, new) for a non-empty old. -/
def pyReplace (s old new : List Char) : List Char := replaceGo old new s.length s

/-- Whether old occurs as a contiguous substring of s. -/
def occursIn (old : List Char) : List Char → Bool
  | [] => old.isEmpty
  | c :: cs => old.isPrefixOf (c :: cs) || occursIn old cs

/-- Placeholder token of the card template body (cards_llm.py line 600). -/
def tokCardModelo : List Char := "{Card_modelo}".toList

/-- Placeholder token of the user-supplied free text (line 601). -/
def tokInformacoesUsuario : List Char := "{informacoes_fornecidas_pelo_usuario}".toList

/-- Placeholder token of the card pasted for analysis (line 661). -/
def tokCardParaAnalise : List Char := "{Card_para_analise}".toList

/-- Placeholder token of the optional project context (line 425). -/
def tokInformacoesAdicionais : List Char := "{informacoes_adicionais}".toList

/-- The replacement sequence of generate_creation_prompt (lines 600-602):
replace the template token, then the user-text token, then the common
additional-information token, each by Python str.replace. -/
def buildCreationPrompt (skeleton template userInfo addInfo : List Char) : List Char :=
  pyReplace
    (pyReplace (pyReplace skeleton tokCardModelo template) tokInformacoesUsuario userInfo)
    tokInformacoesAdicionais addInfo

/-- The same three replace steps applied in the opposite order; used to test
the specification's assertion that the application order does not matter. -/
def buildCreationPromptSwapped (skeleton template userInfo addInfo : List Char) : List Char :=
  pyReplace
    (pyReplace (pyReplace skeleton tokInformacoesAdicionais addInfo) tokInformacoesUsuario userInfo)
    tokCardModelo template

/- ------------------------------------------------------------------
   Template store: load_templates (cards_llm.py lines 19-47).
   The regex r"<(\w+)>(.*?)</\1>" with re.DOTALL is embedded directly:
   at each position try to read an opening angle bracket, a non-empty
   maximal run of word characters, a closing angle bracket, and then the
   earliest literal closing tag for the same name.
   ------------------------------------------------------------------ -/

/-- ASCII fragment of the regex word-character class. -/
def wordChar (c : Char) : Bool := c.isAlphanum || c == '_'

/-- Earliest split of the input as content ++ close ++ rest; models the
non-greedy (.*?) followed by the literal closing tag. -/
def findClose (close : List Char) : List Char → Option (List Char × List Char)
  | [] => if close.isPrefixOf [] then some ([], []) else none
  | c :: cs =>
    if close.isPrefixOf (c :: cs) then some ([], (c :: cs).drop close.length)
    else (findClose close cs).map (fun p => (c :: p.1, p.2))

/-- Attempt of the template regex at the current position: returns the tag
name, the inner content and the remainder after the closing tag. -/
def matchAt (s : List Char) : Option (List Char × List Char × List Char) :=
  match s with
  | [] => none
  | c :: rest =>
    if c = '<' then
      let tag := rest.takeWhile wordChar
      match rest.dropWhile wordChar with
      | [] => none
      | d :: body =>
        if d = '>' then
          if tag.isEmpty then none
          else
            match findClose ('<' :: '/' :: (tag ++ ['>'])) body with
            | some (content, rest2) => some (tag, content, rest2)
            | none => none
        else none
    else none

/-- Fuelled scan of re.finditer over the template regex: try the pattern at
each position, continuing after the end of every match. -/
def findTagsGo (fuel : Nat) (s : List Char) : List (List Char × List Char) :=
  match s with
  | [] => []
  | c :: cs =>
    match fuel with
    | 0 => []
    | fuel' + 1 =>
      match matchAt (c :: cs) with
      | some (tag, content, rest2) => (tag, content) :: findTagsGo fuel' rest2
      | none => findTagsGo fuel' cs

/-- All matches of the template regex, in order (re.finditer). -/
def findTags (s : List Char) : List (List Char × List Char) := findTagsGo s.length s

/-- Lookup in an association list modelling a Python dict (keys are unique
because the list is only ever built by insertAL). -/
def lookupAL : List (List Char × List Char) → List Char → Option (List Char)
  | [], _ => none
  | p :: ps, k => if p.1 = k then some p.2 else lookupAL ps k

/-- Python dict insertion: update an existing key in place (keeping its
position), else append at the end. -/
def insertAL : List (List Char × List Char) → List Char → List Char →
    List (List Char × List Char)
  | [], k, v => [(k, v)]
  | p :: ps, k, v => if p.1 = k then (k, v) :: ps else p :: insertAL ps k v

/-- Value of the last pair carrying the given key, if any. -/
def lookupLast (ps : List (List Char × List Char)) (k : List Char) : Option (List Char) :=
  lookupAL ps.reverse k

/-- Error message raised by load_templates when no template was found. -/
def parseErrorMsg : List Char :=
  "Nenhum template encontrado em templates.txt.".toList

/-- Body of the loop over the matches (lines 35-39): strip the tag name and
the content, skip empty tag names, insert into the dict. -/
def insertStep (d : List (List Char × List Char)) (p : List Char × List Char) :
    List (List Char × List Char) :=
  let tag := trimChars p.1
  let content := trimChars p.2
  if tag.isEmpty then d else insertAL d tag content

/-- load_templates (lines 32-47): collect every regex match, strip tag name
and content, drop empty tag names, insert into the dict (last occurrence
wins), and raise when the dict stays empty. -/
def load_templates (text : List Char) :
    Except (List Char) (List (List Char × List Char)) :=
  let templates := (findTags text).foldl insertStep []
  if templates.isEmpty then .error parseErrorMsg else .ok templates

/- ------------------------------------------------------------------
   Response extractor: _extract_tag_content (cards_llm.py lines 570-580),
   the regex <\s*tag\s*>(.*?)</\s*tag\s*> with DOTALL and IGNORECASE, for
   the literal word-character tag names the application uses.
   ------------------------------------------------------------------ -/

/-- Case-insensitive character comparison (re.IGNORECASE). -/
def ciEq (a b : Char) : Bool := decide (a.toLower = b.toLower)

/-- Pointwise case-insensitive equality of two character lists. -/
def ciAll : List Char → List Char → Bool
  | [], [] => true
  | a :: as', b :: bs => ciEq a b && ciAll as' bs
  | _, _ => false

/-- Consume a case-insensitive copy of the pattern from the front of the
text, returning the remainder. -/
def ciDrop : List Char → List Char → Option (List Char)
  | [], s => some s
  | _, [] => none
  | p :: ps, c :: cs => if ciEq p c then ciDrop ps cs else none

/-- Match the opening tag <\s*tag\s*> at the head of the text. -/
def tryOpen (tag : List Char) : List Char → Option (List Char)
  | '<' :: rest =>
    match ciDrop tag (rest.dropWhile isWs) with
    | some r2 =>
      match r2.dropWhile isWs with
      | '>' :: body => some body
      | _ => none
    | none => none
  | _ => none

/-- Match the closing tag </\s*tag\s*> at the head of the text. -/
def tryClose (tag : List Char) : List Char → Option (List Char)
  | '<' :: '/' :: rest =>
    match ciDrop tag (rest.dropWhile isWs) with
    | some r2 =>
      match r2.dropWhile isWs with
      | '>' :: after => some after
      | _ => none
    | none => none
  | _ => none

/-- Non-greedy content: the characters before the earliest closing tag. -/
def scanClose (tag : List Char) : List Char → Option (List Char)
  | [] => none
  | c :: cs =>
    if (tryClose tag (c :: cs)).isSome then some []
    else (scanClose tag cs).map (fun r => c :: r)

/-- re.search over the extraction regex: the match with the earliest starting
position, returning its inner content. -/
def extractSearch (tag : List Char) : List Char → Option (List Char)
  | [] => none
  | c :: cs =>
    match tryOpen tag (c :: cs) with
    | some body =>
      match scanClose tag body with
      | some content => some content
      | none => extractSearch tag cs
    | none => extractSearch tag cs

/-- One attempt of the extraction regex at the current position: the inner
content when a complete match starts exactly here, none otherwise. -/
def attemptAt (tag s : List Char) : Option (List Char) :=
  match tryOpen tag s with
  | some body => scanClose tag body
  | none => none

/-- _extract_tag_content: the stripped inner content of the first occurrence
of the tag, or the stripped original text when the tag is absent. -/
def extract_tag_content (text tagName : List Char) : List Char :=
  match extractSearch tagName text with
  | some content => trimChars content
  | none => trimChars text

/- ------------------------------------------------------------------
   LLM client: _call_llm (cards_llm.py lines 433-470).  The network and the
   JSON payload are explicit inputs; the Boolean of the result records
   whether the HTTP request was attempted.
   ------------------------------------------------------------------ -/

/-- JSON values, as produced by response.json(). -/
inductive JValue where
  | jnull : JValue
  | jbool : Bool → JValue
  | jnum : Int → JValue
  | jstr : List Char → JValue
  | jarr : List JValue → JValue
  | jobj : List (List Char × JValue) → JValue

/-- Exception class raised by a Python subscription data[k]: KeyError and
IndexError are caught by _call_llm's inner try, TypeError is not. -/
inductive PySubErr where
  | keyIndexErr : PySubErr
  | typeErr : PySubErr
deriving DecidableEq

/-- Python j[key] for a string key: dict lookup (KeyError when missing),
TypeError on any non-dict. -/
def subscriptField (j : JValue) (key : List Char) : Except PySubErr JValue :=
  match j with
  | .jobj fields =>
    match fields.find? (fun p => p.1 == key) with
    | some p => .ok p.2
    | none => .error .keyIndexErr
  | _ => .error .typeErr

/-- Python j[0]: list head (IndexError when empty), first character of a
string, KeyError on a dict without an integer key, TypeError otherwise. -/
def subscriptZero : JValue → Except PySubErr JValue
  | .jarr (x :: _) => .ok x
  | .jarr [] => .error .keyIndexErr
  | .jstr (c :: _) => .ok (.jstr [c])
  | .jstr [] => .error .keyIndexErr
  | .jobj _ => .error .keyIndexErr
  | _ => .error .typeErr

/-- The traversal data["choices"][0]["message"]["content"] (line 466). -/
def contentPath (data : JValue) : Except PySubErr JValue :=
  match subscriptField data ("choices".toList) with
  | .error e => .error e
  | .ok choices =>
    match subscriptZero choices with
    | .error e => .error e
    | .ok c0 =>
      match subscriptField c0 ("message".toList) with
      | .error e => .error e
      | .ok msg => subscriptField msg ("content".toList)

/-- What the network returns for the single POST request: either a raised
requests exception, or a response with a status code and a body that may or
may not parse as JSON. -/
inductive NetOutcome where
  | requestException : NetOutcome
  | response : Nat → Option JValue → NetOutcome

/-- Classes of exception that can leave _call_llm. -/
inductive CallError where
  | configurationError : CallError
  | networkError : CallError
  | jsonDecodeError : CallError
  | protocolError : CallError
  | typeError : CallError
  | attributeError : CallError
deriving DecidableEq

/-- Python falsiness of the configured API key (missing or empty string). -/
def keyFalsy : Option (List Char) → Bool
  | none => true
  | some k => k.isEmpty

/-- _call_llm: raise RuntimeError when no API key is configured (before the
request); raise_for_status on a 4xx/5xx status; json() may raise a decode
error; KeyError/IndexError on the content path becomes the RuntimeError
playing the role of the spec's ProtocolError; a wrong-typed value on the path
raises an uncaught TypeError; a non-string content raises AttributeError at
text.strip(); otherwise return the stripped content.  The Boolean records
whether the HTTP request was attempted. -/
def call_llm (apiKey : Option (List Char)) (net : NetOutcome) :
    Bool × Except CallError (List Char) :=
  if keyFalsy apiKey then (false, .error .configurationError)
  else
    match net with
    | .requestException => (true, .error .networkError)
    | .response status body =>
      if 400 ≤ status ∧ status < 600 then (true, .error .networkError)
      else
        match body with
        | none => (true, .error .jsonDecodeError)
        | some data =>
          match contentPath data with
          | .error .keyIndexErr => (true, .error .protocolError)
          | .error .typeErr => (true, .error .typeError)
          | .ok (.jstr s) => (true, .ok (trimChars s))
          | .ok _ => (true, .error .attributeError)

/- ------------------------------------------------------------------
   GUI layer: the shared busy flag, the async runner, the completion
   callback, the three generate handlers and the clipboard action
   (cards_llm.py lines 58-695).  Widget contents are the stored strings;
   Text.get("1.0", END) appends one trailing newline.
   ------------------------------------------------------------------ -/

/-- The three notebook tabs. -/
inductive Tab where
  | info : Tab
  | create : Tab
  | analyse : Tab
deriving DecidableEq

/-- The data captured by the worker thread started by _run_llm_async. -/
structure PendingTask where
  prompt : List Char
  modelName : List Char
  tagName : List Char
  tab : Tab
deriving DecidableEq

/-- User-visible dialogs raised by the handlers. -/
inductive UIEffect where
  | silent : UIEffect
  | busyNotice : UIEffect
  | warnNoType : UIEffect
  | errTemplateNotFound : UIEffect
  | errorLlm : List Char → UIEffect
  | warnNothingToCopy : UIEffect
  | infoCopied : UIEffect
deriving DecidableEq

/-- The mutable state of CardPromptApp relevant to the handlers: the busy
flag, the scheduled completion (at most one worker exists at a time), the
loaded resources, the widget contents and the clipboard. -/
structure AppState where
  llmRunning : Bool
  pending : Option PendingTask
  templates : List (List Char × List Char)
  creationPrompt : List Char
  analisysPrompt : List Char
  infoValidationPrompt : List Char
  additionalInfo : List Char
  validationModel : List Char
  creationModel : List Char
  analisysModel : List Char
  cardTypeInfoVar : List Char
  cardTypeVar : List Char
  cardTypeAnalyseVar : List Char
  userInfoValidationText : List Char
  userInputText : List Char
  cardToAnalyseText : List Char
  outputTextInfo : List Char
  outputTextCreate : List Char
  outputTextAnalyse : List Char
  clipboard : List Char
deriving DecidableEq

/-- Content of a tab's output area. -/
def getOutput (s : AppState) : Tab → List Char
  | .info => s.outputTextInfo
  | .create => s.outputTextCreate
  | .analyse => s.outputTextAnalyse

/-- Replace a tab's output area. -/
def setOutput (s : AppState) (t : Tab) (v : List Char) : AppState :=
  match t with
  | .info => { s with outputTextInfo := v }
  | .create => { s with outputTextCreate := v }
  | .analyse => { s with outputTextAnalyse := v }

/-- _run_llm_async (lines 522-568): refuse with a busy notice while a call is
in flight; otherwise clear the tab's output immediately, set the busy flag
and start the worker. -/
def run_llm_async (s : AppState) (prompt modelName tagName : List Char) (tab : Tab) :
    AppState × UIEffect :=
  if s.llmRunning then (s, .busyNotice)
  else
    ({ setOutput s tab [] with
        llmRunning := true
        pending := some ⟨prompt, modelName, tagName, tab⟩ }, .silent)

/-- What the worker delivers to the UI thread: the cleaned text, or the
message of the caught exception. -/
inductive LlmResult where
  | success : List Char → LlmResult
  | failure : List Char → LlmResult
deriving DecidableEq

/-- Rendering of each exception class as its dialog message str(exc). -/
def errorMessage : CallError → List Char
  | .configurationError => "Chave de API do OpenRouter nao configurada.".toList
  | .networkError => "HTTPError".toList
  | .jsonDecodeError => "JSONDecodeError".toList
  | .protocolError => "Resposta invalida do modelo OpenRouter.".toList
  | .typeError => "TypeError".toList
  | .attributeError => "AttributeError".toList

/-- The worker body (lines 546-554): call the LLM and extract the tag; every
exception is caught and turned into the failure payload for on_done. -/
def worker (apiKey : Option (List Char)) (net : NetOutcome) (task : PendingTask) :
    LlmResult :=
  match call_llm apiKey net with
  | (_, .ok raw) => .success (extract_tag_content raw task.tagName)
  | (_, .error e) => .failure (errorMessage e)

/-- on_done (lines 556-566), scheduled once by the worker via after(0, ...):
show the error dialog or replace the tab's output, then clear the busy flag
unconditionally.  It consumes the pending task; none exists otherwise. -/
def on_done (s : AppState) (res : LlmResult) : Option (AppState × UIEffect) :=
  match s.pending with
  | none => none
  | some task =>
    match res with
    | .failure msg =>
      some ({ s with llmRunning := false, pending := none }, .errorLlm msg)
    | .success clean =>
      some ({ setOutput s task.tab clean with llmRunning := false, pending := none },
        .silent)

/-- _apply_common_replacements (lines 423-425). -/
def apply_common_replacements (s : AppState) (prompt : List Char) : List Char :=
  pyReplace prompt tokInformacoesAdicionais s.additionalInfo

/-- _get_template_for_type (lines 427-431): strip the type name and look it
up in the template dict (None when the name is empty or absent). -/
def get_template_for_type (s : AppState) (cardType : List Char) : Option (List Char) :=
  let ct := trimChars cardType
  if ct.isEmpty then none else lookupAL s.templates ct

/-- generate_creation_prompt (lines 582-610). -/
def generate_creation_prompt (s : AppState) : AppState × UIEffect :=
  let cardType := trimChars s.cardTypeVar
  if cardType.isEmpty then (s, .warnNoType)
  else
    match get_template_for_type s cardType with
    | none => (s, .errTemplateNotFound)
    | some template =>
      if template.isEmpty then (s, .errTemplateNotFound)
      else
        let userInfo := trimChars (s.userInputText ++ ['\n'])
        let prompt := apply_common_replacements s
          (pyReplace (pyReplace s.creationPrompt tokCardModelo template)
            tokInformacoesUsuario userInfo)
        run_llm_async s prompt s.creationModel ("card".toList) .create

/-- generate_info_validation_prompt (lines 612-640). -/
def generate_info_validation_prompt (s : AppState) : AppState × UIEffect :=
  let cardType := trimChars s.cardTypeInfoVar
  if cardType.isEmpty then (s, .warnNoType)
  else
    match get_template_for_type s cardType with
    | none => (s, .errTemplateNotFound)
    | some template =>
      if template.isEmpty then (s, .errTemplateNotFound)
      else
        let userInfo := trimChars (s.userInfoValidationText ++ ['\n'])
        let prompt := apply_common_replacements s
          (pyReplace (pyReplace s.infoValidationPrompt tokCardModelo template)
            tokInformacoesUsuario userInfo)
        run_llm_async s prompt s.validationModel ("info_validacao".toList) .info

/-- generate_analisys_prompt (lines 642-670). -/
def generate_analisys_prompt (s : AppState) : AppState × UIEffect :=
  let cardType := trimChars s.cardTypeAnalyseVar
  if cardType.isEmpty then (s, .warnNoType)
  else
    match get_template_for_type s cardType with
    | none => (s, .errTemplateNotFound)
    | some template =>
      if template.isEmpty then (s, .errTemplateNotFound)
      else
        let cardToAnalyse := trimChars (s.cardToAnalyseText ++ ['\n'])
        let prompt := apply_common_replacements s
          (pyReplace (pyReplace s.analisysPrompt tokCardModelo template)
            tokCardParaAnalise cardToAnalyse)
        run_llm_async s prompt s.analisysModel ("analise".toList) .analyse

/-- _copy_to_clipboard (lines 675-686): strip the widget text (get appends a
trailing newline); warn and keep the clipboard when nothing remains, else
place the stripped text on the clipboard. -/
def copy_to_clipboard (s : AppState) (widgetText : List Char) : AppState × UIEffect :=
  let prompt := trimChars (widgetText ++ ['\n'])
  if prompt.isEmpty then (s, .warnNothingToCopy)
  else ({ s with clipboard := prompt }, .infoCopied)

/-- copy_prompt_create (lines 688-689). -/
def copy_prompt_create (s : AppState) : AppState × UIEffect :=
  copy_to_clipboard s s.outputTextCreate

/-- copy_prompt_analyse (lines 691-692). -/
def copy_prompt_analyse (s : AppState) : AppState × UIEffect :=
  copy_to_clipboard s s.outputTextAnalyse

/-- copy_prompt_info (lines 694-695). -/
def copy_prompt_info (s : AppState) : AppState × UIEffect :=
  copy_to_clipboard s s.outputTextInfo

/-- A well-formed chat-completion payload whose content carries padding. -/
def sampleGoodPayload : JValue :=
  JValue.jobj [("choices".toList,
    JValue.jarr [JValue.jobj [("message".toList,
      JValue.jobj [("content".toList, JValue.jstr (" hi ".toList))])]])]

/-- A payload with a number (not a string) at choices[0].message.content. -/
def sampleBadPayload : JValue :=
  JValue.jobj [("choices".toList,
    JValue.jarr [JValue.jobj [("message".toList,
      JValue.jobj [("content".toList, JValue.jnum 5)])]])]

/-- A concrete idle application state used to evaluate the theorems. -/
def sampleState : AppState :=
  ⟨false, none, [("bug".toList, "B".toList)], "p".toList, "q".toList, "r".toList,
   [], "mv".toList, "mc".toList, "ma".toList,
   "bug".toList, "bug".toList, "bug".toList,
   [], [], [], [], [], [], []⟩

/-- A concrete task, as captured by a submission. -/
def samplePendingTask : PendingTask := ⟨[], [], "card".toList, Tab.create⟩

/-- The sample state while that task is in flight. -/
def samplePendingState : AppState :=
  { sampleState with llmRunning := true, pending := some samplePendingTask }

/-- An idle state whose creation tab already displays a previous result. -/
def c7Before : AppState := { sampleState with outputTextCreate := "X".toList }

/-- The state right after submitting a new creation call from c7Before. -/
def c7Submitted : AppState :=
  (run_llm_async c7Before [] [] ("card".toList) Tab.create).1

/- ==================================================================
   Theorems.
   ================================================================== -/

/- ------------------------------------------------------------------
   Lemmas about pyReplace.
   ------------------------------------------------------------------ -/

theorem replaceGo_nil (old new : List Char) (fuel : Nat) :
    replaceGo old new fuel [] = [] := by
  cases fuel <;> rfl

theorem isPrefixOf_self (l : List Char) : l.isPrefixOf l = true :=
  List.isPrefixOf_iff_prefix.mpr (List.prefix_refl l)

theorem replaceGo_of_not_occurs (old new : List Char) :
    ∀ (s : List Char) (fuel : Nat), occursIn old s = false →
      replaceGo old new fuel s = s := by
  intro s
  induction s with
  | nil => intro fuel _; exact replaceGo_nil old new fuel
  | cons c cs ih =>
    intro fuel h
    have h' : old.isPrefixOf (c :: cs) = false ∧ occursIn old cs = false := by
      simpa [occursIn] using h
    cases fuel with
    | zero => rfl
    | succ fuel' => simp [replaceGo, h'.1, ih fuel' h'.2]

theorem pyReplace_of_not_occurs (s old new : List Char)
    (h : occursIn old s = false) : pyReplace s old new = s :=
  replaceGo_of_not_occurs old new s s.length h

theorem pyReplace_token_self (t v : List Char) (h : t ≠ []) :
    pyReplace t t v = v := by
  cases t with
  | nil => exact absurd rfl h
  | cons c cs =>
    simp [pyReplace, replaceGo, isPrefixOf_self, List.drop_length]

/-- Claim C1, counterexample.  The handler applies its replace steps in
sequence, so the later {informacoes_adicionais} step re-scans the template
text inserted by the earlier {Card_modelo} step and substitutes inside it,
and applying the same steps in the opposite order yields a different result:
the claim's "inserted verbatim, never re-scanned, order does not matter even
when a value contains a placeholder token" is false on the code. -/
theorem C1_counterexample :
    buildCreationPrompt ("{Card_modelo}".toList) ("{informacoes_adicionais}".toList)
        [] ("XYZ".toList) = "XYZ".toList ∧
    buildCreationPromptSwapped ("{Card_modelo}".toList)
        ("{informacoes_adicionais}".toList) [] ("XYZ".toList)
      = "{informacoes_adicionais}".toList ∧
    buildCreationPrompt ("{Card_modelo}".toList) ("{informacoes_adicionais}".toList)
        [] ("XYZ".toList)
      ≠ buildCreationPromptSwapped ("{Card_modelo}".toList)
        ("{informacoes_adicionais}".toList) [] ("XYZ".toList) :=
  ⟨by decide, by decide, by decide⟩

/-- Claim C1 (amended): each individual replace call is a single pass that
inserts its value verbatim and never re-scans it for the same token — a
string equal to the token is replaced by the value unchanged even when the
value itself contains placeholder tokens, and a string without any occurrence
of the token is left unchanged — but the handler's successive replace calls
re-scan the whole intermediate string, so a value containing a later
placeholder token is substituted by the later step and the application order
can change the result (see the counterexample). -/
theorem C1_single_pass_per_call (t v s : List Char) (h : t ≠ []) :
    pyReplace t t v = v ∧ (occursIn t s = false → pyReplace s t v = s) :=
  ⟨pyReplace_token_self t v h, fun hocc => pyReplace_of_not_occurs s t v hocc⟩

theorem C1_single_pass_per_call_witness :
    pyReplace tokInformacoesAdicionais tokInformacoesAdicionais
        ("x".toList ++ tokCardModelo) = "x".toList ++ tokCardModelo ∧
    pyReplace ("abc".toList) tokInformacoesAdicionais ("v".toList) = "abc".toList := by
  have h := C1_single_pass_per_call tokInformacoesAdicionais
    ("x".toList ++ tokCardModelo) ("abc".toList) (by decide)
  exact ⟨h.1, h.2 (by decide)⟩

/-- Claim C4, counterexample.  A successfully parsed response whose
choices[0].message.content is a number, not a string, makes _call_llm fail
with an uncaught AttributeError at text.strip(), not with the RuntimeError
that plays the role of the spec's ProtocolError. -/
theorem C4_counterexample :
    call_llm (some ("k".toList)) (.response 200 (some sampleBadPayload))
      = (true, .error .attributeError) ∧
    CallError.attributeError ≠ CallError.protocolError :=
  ⟨rfl, by decide⟩

/-- Claim C4 (amended): with no API key configured (missing or empty)
_call_llm fails with the configuration error before any network request is
attempted — for every possible network outcome the request flag stays
false; with a key, on a response that parses as JSON with a non-error
status, the RuntimeError standing for the spec's ProtocolError is raised
exactly when traversing choices[0].message.content raises KeyError or
IndexError (missing key or empty list), and when the traversal yields a
string the call returns that content stripped of surrounding whitespace.  A
wrong-typed value along the path instead fails with an uncaught TypeError,
and a content value that is present but not a string fails with an uncaught
AttributeError at text.strip() — neither is the ProtocolError (see the
counterexample). -/
theorem C4_call_llm (apiKey : Option (List Char)) (net : NetOutcome) :
    (keyFalsy apiKey = true →
      call_llm apiKey net = (false, .error .configurationError)) ∧
    (keyFalsy apiKey = false →
      ∀ status data, status < 400 →
        ((call_llm apiKey (.response status (some data))
            = (true, .error .protocolError))
          ↔ contentPath data = .error .keyIndexErr) ∧
        (∀ str, contentPath data = .ok (.jstr str) →
          call_llm apiKey (.response status (some data))
            = (true, .ok (trimChars str))) ∧
        (contentPath data = .error .typeErr →
          call_llm apiKey (.response status (some data))
            = (true, .error .typeError)) ∧
        (∀ j, contentPath data = .ok j → (∀ str, j ≠ JValue.jstr str) →
          call_llm apiKey (.response status (some data))
            = (true, .error .attributeError))) := by
  constructor
  · intro h; simp [call_llm, h]
  · intro h
    intro status data hst
    have hcond : ¬(400 ≤ status ∧ status < 600) := by omega
    refine ⟨?_, ?_, ?_, ?_⟩
    · rcases hc : contentPath data with e | v
      · cases e <;> simp [call_llm, h, hcond, hc]
      · rcases v <;> simp [call_llm, h, hcond, hc]
    · intro str hstr
      simp [call_llm, h, hcond, hstr]
    · intro hty
      simp [call_llm, h, hcond, hty]
    · intro j hj hns
      rcases j with _ | b | n | str | items | fields
      · simp [call_llm, h, hcond, hj]
      · simp [call_llm, h, hcond, hj]
      · simp [call_llm, h, hcond, hj]
      · exact absurd rfl (hns str)
      · simp [call_llm, h, hcond, hj]
      · simp [call_llm, h, hcond, hj]

theorem C4_call_llm_witness :
    call_llm none (.response 200 (some (JValue.jobj [])))
      = (false, .error .configurationError) ∧
    call_llm (some ("k".toList)) (.response 200 (some (JValue.jobj [])))
      = (true, .error .protocolError) ∧
    call_llm (some ("k".toList)) (.response 200 (some sampleGoodPayload))
      = (true, .ok ("hi".toList)) ∧
    call_llm (some ("k".toList)) (.response 200 (some sampleBadPayload))
      = (true, .error .attributeError) := by
  have h1 := (C4_call_llm none (.response 200 (some (JValue.jobj [])))).1 rfl
  have h2 := (C4_call_llm (some ("k".toList))
    (.response 200 (some (JValue.jobj [])))).2 rfl 200 (JValue.jobj [])
    (by omega)
  have h3 := (C4_call_llm (some ("k".toList))
    (.response 200 (some sampleGoodPayload))).2 rfl 200 sampleGoodPayload
    (by omega)
  have h4 := (h3.2.1 (" hi ".toList)) rfl
  have h5 : trimChars (" hi ".toList) = "hi".toList := by decide
  have h6 := (C4_call_llm (some ("k".toList))
    (.response 200 (some sampleBadPayload))).2 rfl 200 sampleBadPayload
    (by omega)
  have h7 := h6.2.2.2 (JValue.jnum 5) rfl
    (fun str hcon => JValue.noConfusion hcon)
  exact ⟨h1, (h2.1).mpr rfl, by rw [h5] at h4; exact h4, h7⟩

/- ------------------------------------------------------------------
   Lemmas about the submission / completion state machine.
   ------------------------------------------------------------------ -/

theorem setOutput_llmRunning (s : AppState) (t : Tab) (v : List Char) :
    (setOutput s t v).llmRunning = s.llmRunning := by
  cases t <;> rfl

theorem setOutput_pending (s : AppState) (t : Tab) (v : List Char) :
    (setOutput s t v).pending = s.pending := by
  cases t <;> rfl

theorem getOutput_setOutput_same (s : AppState) (t : Tab) (v : List Char) :
    getOutput (setOutput s t v) t = v := by
  cases t <;> rfl

theorem getOutput_setOutput_other (s : AppState) (t t' : Tab) (v : List Char)
    (h : t' ≠ t) : getOutput (setOutput s t v) t' = getOutput s t' := by
  cases t <;> cases t' <;> first | rfl | exact absurd rfl h

theorem getOutput_mark_busy (x : AppState) (pt : PendingTask) (tb : Tab) :
    getOutput { x with llmRunning := true, pending := some pt } tb
      = getOutput x tb := by
  cases tb <;> rfl

theorem getOutput_mark_idle (x : AppState) (tb : Tab) :
    getOutput { x with llmRunning := false, pending := none } tb
      = getOutput x tb := by
  cases tb <;> rfl

/-- Claim C5: while the shared busy flag is set, a new submission only
raises the busy notice, changes nothing of the state — in particular it
starts no new worker and leaves the pending task's eventual completion
unaffected — and a submission is accepted (the worker is started and the
flag raised) only from the idle state. -/
theorem C5_busy_exclusion (s : AppState) (p m t : List Char) (tab : Tab) :
    (s.llmRunning = true →
      run_llm_async s p m t tab = (s, .busyNotice) ∧
      ∀ res, on_done (run_llm_async s p m t tab).1 res = on_done s res) ∧
    (s.llmRunning = false →
      (run_llm_async s p m t tab).1.llmRunning = true ∧
      (run_llm_async s p m t tab).1.pending = some ⟨p, m, t, tab⟩ ∧
      (run_llm_async s p m t tab).2 = .silent) := by
  constructor
  · intro h
    constructor
    · simp [run_llm_async, h]
    · intro res; simp [run_llm_async, h]
  · intro h
    refine ⟨?_, ?_, ?_⟩ <;> simp [run_llm_async, h, setOutput_pending]

theorem C5_busy_exclusion_witness :
    run_llm_async samplePendingState ("p".toList) ("m".toList) ("card".toList)
        Tab.create = (samplePendingState, .busyNotice) ∧
    (run_llm_async sampleState ("p".toList) ("m".toList) ("card".toList)
        Tab.create).1.llmRunning = true := by
  have h1 := (C5_busy_exclusion samplePendingState ("p".toList) ("m".toList)
    ("card".toList) Tab.create).1 rfl
  have h2 := (C5_busy_exclusion sampleState ("p".toList) ("m".toList)
    ("card".toList) Tab.create).2 rfl
  exact ⟨h1.1, h2.1⟩

/-- Claim C6: whenever the scheduled completion callback runs, it clears the
busy flag unconditionally — on the success and on the failure path alike —
consumes the pending task so that it cannot run a second time, and leaves
the system back in the idle state. -/
theorem C6_completion_clears_busy (s : AppState) (res : LlmResult)
    (s' : AppState) (eff : UIEffect) (h : on_done s res = some (s', eff)) :
    s'.llmRunning = false ∧ s'.pending = none ∧
      ∀ res2, on_done s' res2 = none := by
  rcases hp : s.pending with _ | task
  · simp only [on_done, hp] at h
    exact Option.noConfusion h
  · simp only [on_done, hp] at h
    cases res with
    | failure msg =>
      injection h with h'
      injection h' with h1 h2
      subst h1
      exact ⟨rfl, rfl, fun res2 => rfl⟩
    | success clean =>
      injection h with h'
      injection h' with h1 h2
      subst h1
      exact ⟨rfl, rfl, fun res2 => rfl⟩

theorem C6_completion_clears_busy_witness :
    on_done samplePendingState (.failure ("e".toList))
      = some ({ samplePendingState with llmRunning := false, pending := none },
          .errorLlm ("e".toList)) ∧
    ({ samplePendingState with llmRunning := false, pending := none }
        : AppState).llmRunning = false ∧
    on_done { samplePendingState with llmRunning := false, pending := none }
      (.success []) = none := by
  have h := C6_completion_clears_busy samplePendingState (.failure ("e".toList))
    { samplePendingState with llmRunning := false, pending := none }
    (.errorLlm ("e".toList)) rfl
  exact ⟨rfl, h.1, h.2.2 (.success [])⟩

/-- Claim C7, counterexample.  A submission immediately clears its own tab's
output area, so a submission that ends in failure leaves the tab's output
empty, not the previously displayed output: starting from a state whose
creation tab shows "X", submitting and completing with an error leaves the
creation output empty. -/
theorem C7_counterexample :
    c7Before.outputTextCreate = "X".toList ∧
    on_done c7Submitted (.failure ("boom".toList))
      = some ({ c7Submitted with llmRunning := false, pending := none },
          .errorLlm ("boom".toList)) ∧
    ({ c7Submitted with llmRunning := false, pending := none }
        : AppState).outputTextCreate = [] ∧
    ("X".toList : List Char) ≠ [] := by
  refine ⟨rfl, rfl, rfl, by decide⟩

/-- Claim C7 (amended): a submission clears only its own tab's output area
and a completion writes only its own task's tab — every other tab's output
is unchanged by submission and completion alike; a completion that fails
changes no output area at all, so the tab then shows the empty text the
submission left there (not the output displayed before the submission — see
the counterexample); a successful completion replaces its own tab's output
with the call's cleaned result. -/
theorem C7_frame (s : AppState) (p m t : List Char) (tab : Tab) :
    (∀ tab', tab' ≠ tab →
      getOutput (run_llm_async s p m t tab).1 tab' = getOutput s tab') ∧
    (∀ res s' eff task, s.pending = some task →
      on_done s res = some (s', eff) →
      (∀ tab', tab' ≠ task.tab → getOutput s' tab' = getOutput s tab') ∧
      (∀ msg, res = .failure msg → ∀ tab', getOutput s' tab' = getOutput s tab') ∧
      (∀ clean, res = .success clean →
        getOutput s' task.tab = clean)) := by
  constructor
  · intro tab' hne
    cases hb : s.llmRunning with
    | true => simp [run_llm_async, hb]
    | false =>
      cases tab <;> cases tab' <;>
        first
          | exact absurd rfl hne
          | simp [run_llm_async, hb, getOutput, setOutput]
  · intro res s' eff task hp hd
    simp only [on_done, hp] at hd
    cases res with
    | failure msg =>
      injection hd with hd'
      injection hd' with h1 h2
      subst h1
      refine ⟨?_, ?_, ?_⟩
      · intro tab' _; exact getOutput_mark_idle s tab'
      · intro msg2 _ tab'; exact getOutput_mark_idle s tab'
      · intro clean hcl; exact LlmResult.noConfusion hcl
    | success clean =>
      injection hd with hd'
      injection hd' with h1 h2
      subst h1
      refine ⟨?_, ?_, ?_⟩
      · intro tab' hne
        rw [getOutput_mark_idle]
        exact getOutput_setOutput_other s task.tab tab' clean hne
      · intro msg2 hcl; exact LlmResult.noConfusion hcl
      · intro clean2 hcl
        injection hcl with h3
        subst h3
        rw [getOutput_mark_idle]
        exact getOutput_setOutput_same s task.tab clean

theorem C7_frame_witness :
    getOutput (run_llm_async samplePendingState [] [] ("card".toList)
        Tab.create).1 Tab.info = getOutput samplePendingState Tab.info ∧
    getOutput { samplePendingState with llmRunning := false, pending := none }
        Tab.create = getOutput samplePendingState Tab.create := by
  have h := C7_frame samplePendingState [] [] ("card".toList) Tab.create
  refine ⟨h.1 Tab.info (by decide), ?_⟩
  have h2 := h.2 (.failure ("e".toList))
    { samplePendingState with llmRunning := false, pending := none }
    (.errorLlm ("e".toList)) samplePendingTask rfl rfl
  exact h2.2.1 ("e".toList) rfl Tab.create

/-- Claim C10: for every accepted submission the worker's outcome is a total
function of the call's result — every exception class of the LLM call
(configuration, network, JSON decode, protocol, type and attribute errors
alike) is caught and carried to the single completion callback — so the
completion delivers exactly one of two outcomes: an error dialog carrying
the exception message with every output area untouched, or the extracted
text written to the submitting tab's output widget, and never both. -/
theorem C10_worker_dichotomy (s : AppState) (apiKey : Option (List Char))
    (net : NetOutcome) (task : PendingTask) (h : s.pending = some task) :
    ∃ s' eff, on_done s (worker apiKey net task) = some (s', eff) ∧
      (((∃ msg, worker apiKey net task = .failure msg ∧ eff = .errorLlm msg) ∧
          getOutput s' Tab.info = getOutput s Tab.info ∧
          getOutput s' Tab.create = getOutput s Tab.create ∧
          getOutput s' Tab.analyse = getOutput s Tab.analyse) ∨
        (∃ raw requested, call_llm apiKey net = (requested, .ok raw) ∧
          eff = .silent ∧
          getOutput s' task.tab = extract_tag_content raw task.tagName)) ∧
      (∀ msg2, ¬(eff = .silent ∧ eff = .errorLlm msg2)) := by
  rcases hc : call_llm apiKey net with ⟨b, r⟩
  cases r with
  | error e =>
    have hw : worker apiKey net task = .failure (errorMessage e) := by
      simp only [worker]; rw [hc]
    refine ⟨{ s with llmRunning := false, pending := none },
      .errorLlm (errorMessage e), ?_, ?_, ?_⟩
    · rw [hw]; simp only [on_done, h]
    · exact Or.inl ⟨⟨errorMessage e, hw, rfl⟩, getOutput_mark_idle s Tab.info,
        getOutput_mark_idle s Tab.create, getOutput_mark_idle s Tab.analyse⟩
    · rintro msg2 ⟨h1, _⟩; exact UIEffect.noConfusion h1
  | ok raw =>
    have hw : worker apiKey net task
        = .success (extract_tag_content raw task.tagName) := by
      simp only [worker]; rw [hc]
    refine ⟨{ setOutput s task.tab (extract_tag_content raw task.tagName) with
        llmRunning := false, pending := none }, .silent, ?_, ?_, ?_⟩
    · rw [hw]; simp only [on_done, h]
    · refine Or.inr ⟨raw, b, rfl, rfl, ?_⟩
      rw [getOutput_mark_idle]
      exact getOutput_setOutput_same s task.tab _
    · rintro msg2 ⟨_, h2⟩; exact UIEffect.noConfusion h2

theorem C10_worker_dichotomy_witness :
    on_done samplePendingState
        (worker none NetOutcome.requestException samplePendingTask) ≠ none := by
  obtain ⟨s', eff, he, _, _⟩ := C10_worker_dichotomy samplePendingState none
    NetOutcome.requestException samplePendingTask rfl
  rw [he]
  exact Option.noConfusion

/- ------------------------------------------------------------------
   Lemmas about trimChars.
   ------------------------------------------------------------------ -/

theorem dropWhile_isWs_idem (l : List Char) :
    (l.dropWhile isWs).dropWhile isWs = l.dropWhile isWs := by
  induction l with
  | nil => rfl
  | cons c cs ih =>
    by_cases h : isWs c = true
    · simp [List.dropWhile_cons, h, ih]
    · simp [List.dropWhile_cons, h]

theorem dropWhile_head_false (p : Char → Bool) (l : List Char) (c : Char)
    (cs : List Char) (h : l.dropWhile p = c :: cs) : p c = false := by
  have h2 := List.head?_dropWhile_not p l
  rw [h] at h2
  simpa using h2

theorem dropWhile_all_false (p : Char → Bool) (l : List Char)
    (h : ∀ c ∈ l, p c = false) : l.dropWhile p = l := by
  cases l with
  | nil => rfl
  | cons c cs => simp [List.dropWhile_cons, h c (by simp)]

theorem trimChars_of_all_not_ws (l : List Char) (h : ∀ c ∈ l, isWs c = false) :
    trimChars l = l := by
  have h1 : l.dropWhile isWs = l := dropWhile_all_false _ _ h
  have h2 : l.reverse.dropWhile isWs = l.reverse :=
    dropWhile_all_false _ _ (fun c hc => h c (List.mem_reverse.mp hc))
  rw [trimChars, h1, h2, List.reverse_reverse]

theorem trimChars_append_ws (l : List Char) (c : Char) (hc : isWs c = true) :
    trimChars (l ++ [c]) = trimChars l := by
  rw [trimChars, trimChars, List.dropWhile_append]
  by_cases h : (l.dropWhile isWs).isEmpty
  · rw [if_pos h]
    have h0 : l.dropWhile isWs = [] := List.isEmpty_iff.mp h
    simp [h0, List.dropWhile_cons, hc]
  · rw [if_neg h]
    simp [List.reverse_append, List.dropWhile_cons, hc]

theorem trimChars_idem (l : List Char) : trimChars (trimChars l) = trimChars l := by
  rcases hBr : ((l.dropWhile isWs).reverse.dropWhile isWs).reverse with _ | ⟨x, xs⟩
  · have hm : trimChars l = [] := by rw [trimChars]; exact hBr
    rw [hm]; rfl
  · have hm : trimChars l = x :: xs := by rw [trimChars]; exact hBr
    have hdecomp := List.takeWhile_append_dropWhile isWs (l.dropWhile isWs).reverse
    have hA2 : l.dropWhile isWs
        = (x :: xs) ++ ((l.dropWhile isWs).reverse.takeWhile isWs).reverse := by
      have h3 := congrArg List.reverse hdecomp
      rw [List.reverse_append, List.reverse_reverse] at h3
      rw [hBr] at h3
      exact h3.symm
    have hx : isWs x = false := by
      exact dropWhile_head_false isWs l x
        (xs ++ ((l.dropWhile isWs).reverse.takeWhile isWs).reverse) hA2
    have hstep1 : (x :: xs).dropWhile isWs = x :: xs := by
      simp [List.dropWhile_cons, hx]
    have hstep2 : ((x :: xs).reverse).dropWhile isWs = (x :: xs).reverse := by
      have h4 : (x :: xs).reverse = (l.dropWhile isWs).reverse.dropWhile isWs := by
        rw [← hBr, List.reverse_reverse]
      rw [h4]
      exact dropWhile_isWs_idem _
    rw [hm, trimChars, hstep1, hstep2, List.reverse_reverse]

/-- Claim C8: the copy action warns and leaves the clipboard unchanged when
the tab's output area is empty after trimming; otherwise it places the
output text on the clipboard — verbatim for every text the application
itself ever writes to an output area, since the completion handler only
writes already-trimmed extraction results, on which the action's strip is
the identity (the trailing newline is the one the Text widget appends). -/
theorem C8_copy_to_clipboard (s : AppState) (w : List Char) :
    (trimChars (w ++ ['\n']) = [] →
      copy_to_clipboard s w = (s, .warnNothingToCopy)) ∧
    (trimChars w = w → w ≠ [] →
      copy_to_clipboard s w = ({ s with clipboard := w }, .infoCopied)) ∧
    (∀ raw tagName, trimChars (extract_tag_content raw tagName)
      = extract_tag_content raw tagName) := by
  refine ⟨?_, ?_, ?_⟩
  · intro h
    simp [copy_to_clipboard, h]
  · intro h1 h2
    have h3 : trimChars (w ++ ['\n']) = w := by
      rw [trimChars_append_ws w '\n' (by decide), h1]
    simp [copy_to_clipboard, h3, List.isEmpty_iff, h2]
  · intro raw tagName
    simp only [extract_tag_content]
    rcases he : extractSearch tagName raw with _ | content
    · simp only [he]
      exact trimChars_idem raw
    · simp only [he]
      exact trimChars_idem content

theorem C8_copy_to_clipboard_witness :
    copy_to_clipboard sampleState ("  ".toList)
      = (sampleState, .warnNothingToCopy) ∧
    copy_to_clipboard sampleState ("abc".toList)
      = ({ sampleState with clipboard := "abc".toList }, .infoCopied) := by
  have h1 := C8_copy_to_clipboard sampleState ("  ".toList)
  have h2 := C8_copy_to_clipboard sampleState ("abc".toList)
  exact ⟨h1.1 (by decide), h2.2.1 (by decide) (by decide)⟩

/-- Claim C9: each of the three generate handlers, when the selected type is
empty after stripping or when the stripped type has no entry in the template
dict, shows its validation dialog and returns with the state unchanged — no
prompt is built, no task is submitted, and the busy flag and every output
area keep their values. -/
theorem C9_validation_guard (s : AppState) :
    (trimChars s.cardTypeVar = [] →
      generate_creation_prompt s = (s, .warnNoType)) ∧
    (trimChars s.cardTypeVar ≠ [] →
      lookupAL s.templates (trimChars s.cardTypeVar) = none →
      generate_creation_prompt s = (s, .errTemplateNotFound)) ∧
    (trimChars s.cardTypeInfoVar = [] →
      generate_info_validation_prompt s = (s, .warnNoType)) ∧
    (trimChars s.cardTypeInfoVar ≠ [] →
      lookupAL s.templates (trimChars s.cardTypeInfoVar) = none →
      generate_info_validation_prompt s = (s, .errTemplateNotFound)) ∧
    (trimChars s.cardTypeAnalyseVar = [] →
      generate_analisys_prompt s = (s, .warnNoType)) ∧
    (trimChars s.cardTypeAnalyseVar ≠ [] →
      lookupAL s.templates (trimChars s.cardTypeAnalyseVar) = none →
      generate_analisys_prompt s = (s, .errTemplateNotFound)) := by
  refine ⟨?_, ?_, ?_, ?_, ?_, ?_⟩
  · intro h; simp [generate_creation_prompt, h]
  · intro h1 h2
    simp [generate_creation_prompt, get_template_for_type, List.isEmpty_iff,
      h1, trimChars_idem, h2]
  · intro h; simp [generate_info_validation_prompt, h]
  · intro h1 h2
    simp [generate_info_validation_prompt, get_template_for_type,
      List.isEmpty_iff, h1, trimChars_idem, h2]
  · intro h; simp [generate_analisys_prompt, h]
  · intro h1 h2
    simp [generate_analisys_prompt, get_template_for_type, List.isEmpty_iff,
      h1, trimChars_idem, h2]

/- ------------------------------------------------------------------
   Lemmas about the response extractor.
   ------------------------------------------------------------------ -/

theorem ciEq_symm (a b : Char) (h : ciEq a b = true) : ciEq b a = true := by
  simp [ciEq] at h ⊢
  exact h.symm

theorem ciDrop_append (t u r : List Char) (h : ciAll u t = true) :
    ciDrop t (u ++ r) = some r := by
  induction t generalizing u with
  | nil =>
    cases u with
    | nil => simp [ciDrop]
    | cons a as => simp [ciAll] at h
  | cons tc ts ih =>
    cases u with
    | nil => simp [ciAll] at h
    | cons a as =>
      have h' : ciEq a tc = true ∧ ciAll as ts = true := by
        simpa [ciAll] using h
      simp [ciDrop, ciEq_symm a tc h'.1, ih as h'.2]

theorem dropWhile_ws_append (ws rest : List Char)
    (h : ∀ c ∈ ws, isWs c = true) :
    (ws ++ rest).dropWhile isWs = rest.dropWhile isWs := by
  induction ws with
  | nil => rfl
  | cons c cs ih =>
    simp only [List.cons_append, List.dropWhile_cons, h c (by simp)]
    exact ih (fun x hx => h x (by simp [hx]))

theorem tryOpen_build (tag tagU ws1 ws2 rest : List Char)
    (hU : tagU ≠ []) (hUws : ∀ c ∈ tagU, isWs c = false)
    (hciU : ciAll tagU tag = true)
    (hws1 : ∀ c ∈ ws1, isWs c = true) (hws2 : ∀ c ∈ ws2, isWs c = true) :
    tryOpen tag ('<' :: (ws1 ++ (tagU ++ (ws2 ++ '>' :: rest)))) = some rest := by
  have hgt : isWs '>' = false := by decide
  have e1 : (ws1 ++ (tagU ++ (ws2 ++ '>' :: rest))).dropWhile isWs
      = tagU ++ (ws2 ++ '>' :: rest) := by
    rw [dropWhile_ws_append ws1 _ hws1]
    cases tagU with
    | nil => exact absurd rfl hU
    | cons u us => simp [List.cons_append, List.dropWhile_cons, hUws u (by simp)]
  have e2 : ciDrop tag (tagU ++ (ws2 ++ '>' :: rest)) = some (ws2 ++ '>' :: rest) :=
    ciDrop_append tag tagU _ hciU
  have e3 : (ws2 ++ '>' :: rest).dropWhile isWs = '>' :: rest := by
    rw [dropWhile_ws_append ws2 _ hws2]
    simp [List.dropWhile_cons, hgt]
  simp only [tryOpen, e1, e2, e3]

theorem extractSearch_cons (tag : List Char) (c : Char) (cs : List Char) :
    extractSearch tag (c :: cs)
      = match attemptAt tag (c :: cs) with
        | some content => some content
        | none => extractSearch tag cs := by
  simp only [extractSearch, attemptAt]
  rcases ho : tryOpen tag (c :: cs) with _ | body
  · simp [ho]
  · rcases hs : scanClose tag body with _ | content <;> simp [ho, hs]

theorem extractSearch_skip (tag pre : List Char) :
    ∀ (rest : List Char),
      (∀ p2 ∈ pre.tails, p2 ≠ [] → attemptAt tag (p2 ++ rest) = none) →
      extractSearch tag (pre ++ rest) = extractSearch tag rest := by
  induction pre with
  | nil => intro rest _; rfl
  | cons c cs ih =>
    intro rest h
    have h0 : attemptAt tag ((c :: cs) ++ rest) = none :=
      h (c :: cs) ((List.mem_tails _ _).mpr (List.suffix_refl _)) (by simp)
    rw [List.cons_append] at h0 ⊢
    rw [extractSearch_cons, h0]
    exact ih rest (fun p2 hp2 hne =>
      h p2 ((List.mem_tails _ _).mpr
        (((List.mem_tails _ _).mp hp2).trans (List.suffix_cons c cs))) hne)

/-- Claim C3: _extract_tag_content returns the trimmed inner content of the
first occurrence of the tag anywhere in the text — matched
case-insensitively, tolerating whitespace around the tag name inside the
angle brackets and matching across line breaks (DOTALL): after any preceding
content in which no match of the pattern starts, an opening tag written in
any character case and with any whitespace padding, whose earliest closing
tag follows the inner content, extracts exactly that trimmed content
regardless of what follows; and on any text in which the pattern never
matches it returns the trimmed original text (it is a total function and
never fails). -/
theorem C3_extract_tag_content (tag tagU pre ws1 ws2 inner tail text : List Char)
    (hU : tagU ≠ []) (hUws : ∀ c ∈ tagU, isWs c = false)
    (hciU : ciAll tagU tag = true)
    (hws1 : ∀ c ∈ ws1, isWs c = true) (hws2 : ∀ c ∈ ws2, isWs c = true)
    (hclose : scanClose tag (inner ++ tail) = some inner)
    (hpre : ∀ p2 ∈ pre.tails, p2 ≠ [] →
      attemptAt tag
        (p2 ++ ('<' :: (ws1 ++ (tagU ++ (ws2 ++ '>' :: (inner ++ tail)))))) = none) :
    extract_tag_content
        (pre ++ ('<' :: (ws1 ++ (tagU ++ (ws2 ++ '>' :: (inner ++ tail)))))) tag
      = trimChars inner ∧
    (extractSearch tag text = none →
      extract_tag_content text tag = trimChars text) := by
  constructor
  · have e0 := tryOpen_build tag tagU ws1 ws2 (inner ++ tail) hU hUws hciU hws1 hws2
    have eX : extractSearch tag
        ('<' :: (ws1 ++ (tagU ++ (ws2 ++ '>' :: (inner ++ tail))))) = some inner := by
      simp only [extractSearch, e0, hclose]
    have eskip := extractSearch_skip tag pre
      ('<' :: (ws1 ++ (tagU ++ (ws2 ++ '>' :: (inner ++ tail))))) hpre
    simp only [extract_tag_content, eskip, eX]
  · intro h
    simp [extract_tag_content, h]

theorem C3_extract_tag_content_witness :
    extract_tag_content ("ju<nk ".toList ++ ('<' :: (" ".toList ++ ("CaRd".toList ++
        ("\t".toList ++ '>' :: ("line1\nline2".toList ++ "</ CARD >post".toList))))))
        ("card".toList) = trimChars ("line1\nline2".toList) ∧
    extract_tag_content ("no tags".toList) ("card".toList)
      = trimChars ("no tags".toList) := by
  have h := C3_extract_tag_content ("card".toList) ("CaRd".toList) ("ju<nk ".toList)
    (" ".toList) ("\t".toList) ("line1\nline2".toList) ("</ CARD >post".toList)
    ("no tags".toList) (by decide) (by decide) (by decide) (by decide)
    (by decide) (by decide) (by decide)
  exact ⟨h.1, h.2 (by decide)⟩

/- ------------------------------------------------------------------
   Lemmas about the template store.
   ------------------------------------------------------------------ -/

theorem wordChar_not_ws (c : Char) (h : wordChar c = true) : isWs c = false := by
  cases hw : isWs c with
  | false => rfl
  | true =>
    exfalso
    have h4 : c = ' ' ∨ c = '\t' ∨ c = '\r' ∨ c = '\n' := by
      simpa [isWs, Char.isWhitespace, or_assoc] using hw
    rcases h4 with rfl | rfl | rfl | rfl <;> exact absurd h (by decide)

theorem matchAt_tag_facts (s tg ct r2 : List Char)
    (h : matchAt s = some (tg, ct, r2)) :
    tg ≠ [] ∧ ∀ ch ∈ tg, wordChar ch = true := by
  cases s with
  | nil => simp [matchAt] at h
  | cons c rest =>
    simp only [matchAt] at h
    by_cases hc : c = '<'
    · rw [if_pos hc] at h
      rcases hd : rest.dropWhile wordChar with _ | ⟨d, body⟩
      · rw [hd] at h; exact Option.noConfusion h
      · simp only [hd] at h
        by_cases hgt : d = '>'
        · rw [if_pos hgt] at h
          by_cases hemp : (rest.takeWhile wordChar).isEmpty
          · rw [if_pos hemp] at h; exact Option.noConfusion h
          · rw [if_neg hemp] at h
            rcases hf : findClose ('<' :: '/' :: (rest.takeWhile wordChar ++ ['>']))
                body with _ | ⟨content, rest2⟩
            · rw [hf] at h; exact Option.noConfusion h
            · rw [hf] at h
              injection h with h'
              have htg : rest.takeWhile wordChar = tg := congrArg Prod.fst h'
              constructor
              · rw [← htg]
                intro hnil
                exact hemp (by simp [hnil])
              · intro ch hch
                rw [← htg] at hch
                exact List.mem_takeWhile_imp hch
        · rw [if_neg hgt] at h; exact Option.noConfusion h
    · rw [if_neg hc] at h; exact Option.noConfusion h

theorem findTagsGo_tags (fuel : Nat) :
    ∀ s p, p ∈ findTagsGo fuel s →
      p.1 ≠ [] ∧ ∀ ch ∈ p.1, wordChar ch = true := by
  induction fuel with
  | zero =>
    intro s p hp
    cases s with
    | nil => simp [findTagsGo] at hp
    | cons c cs => simp [findTagsGo] at hp
  | succ fuel' ih =>
    intro s p hp
    cases s with
    | nil => simp [findTagsGo] at hp
    | cons c cs =>
      rcases hm : matchAt (c :: cs) with _ | ⟨tg, ct, r2⟩
      · simp only [findTagsGo, hm] at hp
        exact ih cs p hp
      · simp only [findTagsGo, hm] at hp
        rcases List.mem_cons.mp hp with heq | hp'
        · subst heq
          exact matchAt_tag_facts (c :: cs) tg ct r2 hm
        · exact ih r2 p hp'

theorem lookupAL_insertAL (d : List (List Char × List Char)) (k v k' : List Char) :
    lookupAL (insertAL d k v) k' = if k' = k then some v else lookupAL d k' := by
  induction d with
  | nil =>
    by_cases hk : k' = k
    · simp [insertAL, lookupAL, hk]
    · have hkk : ¬k = k' := fun h => hk h.symm
      simp [insertAL, lookupAL, hk, hkk]
  | cons q qs ih =>
    by_cases hq : q.1 = k
    · by_cases hk : k' = k
      · simp [insertAL, lookupAL, hq, hk]
      · have hkk : ¬k = k' := fun h => hk h.symm
        simp [insertAL, lookupAL, hq, hk, hkk]
    · by_cases hk' : q.1 = k'
      · have hk : ¬k' = k := fun he => hq (hk'.trans he)
        simp [insertAL, lookupAL, hq, hk', hk]
      · simp [insertAL, lookupAL, hq, hk', ih]

theorem some_or_eq (a : List Char) (x : Option (List Char)) :
    (some a).or x = some a := rfl

theorem lookupAL_append (a b : List (List Char × List Char)) (k : List Char) :
    lookupAL (a ++ b) k = (lookupAL a k).or (lookupAL b k) := by
  induction a with
  | nil => simp [lookupAL, Option.none_or]
  | cons q qs ih =>
    by_cases hq : q.1 = k
    · simp [lookupAL, hq, some_or_eq]
    · simp [lookupAL, hq, ih]

theorem lookupLast_cons (q : List Char × List Char)
    (l : List (List Char × List Char)) (k : List Char) :
    lookupLast (q :: l) k
      = (lookupLast l k).or (if q.1 = k then some q.2 else none) := by
  rw [lookupLast, lookupLast, List.reverse_cons, lookupAL_append]
  by_cases hq : q.1 = k
  · simp [lookupAL, hq]
  · simp [lookupAL, hq]

theorem foldl_insertStep_lookup (ps : List (List Char × List Char)) :
    ∀ (d : List (List Char × List Char)) (k : List Char),
      (∀ p ∈ ps, trimChars p.1 ≠ []) →
      lookupAL (ps.foldl insertStep d) k
        = (lookupLast (ps.map (fun p => (trimChars p.1, trimChars p.2))) k).or
            (lookupAL d k) := by
  induction ps with
  | nil =>
    intro d k _
    simp [lookupLast, lookupAL, Option.none_or]
  | cons p ps ih =>
    intro d k h
    have hp1 : trimChars p.1 ≠ [] := h p (by simp)
    have hps : ∀ q ∈ ps, trimChars q.1 ≠ [] := fun q hq => h q (by simp [hq])
    rw [List.foldl_cons]
    have hstep : insertStep d p = insertAL d (trimChars p.1) (trimChars p.2) := by
      simp [insertStep, List.isEmpty_iff, hp1]
    rw [hstep, ih (insertAL d (trimChars p.1) (trimChars p.2)) k hps,
      lookupAL_insertAL, List.map_cons, lookupLast_cons]
    rcases hll : lookupLast (ps.map fun p => (trimChars p.1, trimChars p.2)) k
        with _ | v
    · by_cases hk : k = trimChars p.1
      · subst hk
        simp [hll, Option.none_or, some_or_eq]
      · have hkk : ¬trimChars p.1 = k := fun h => hk h.symm
        simp [hll, hk, hkk, Option.none_or]
    · simp [hll, some_or_eq]

theorem insertAL_ne_nil (d : List (List Char × List Char)) (k v : List Char) :
    insertAL d k v ≠ [] := by
  cases d with
  | nil => simp [insertAL]
  | cons q qs =>
    by_cases hq : q.1 = k
    · simp [insertAL, hq]
    · simp [insertAL, hq]

theorem insertStep_ne_nil_of_tag (d : List (List Char × List Char))
    (p : List Char × List Char) (hp : trimChars p.1 ≠ []) :
    insertStep d p ≠ [] := by
  have ht : (trimChars p.1).isEmpty = false := by
    cases ht2 : (trimChars p.1).isEmpty with
    | false => rfl
    | true => exact absurd (List.isEmpty_iff.mp ht2) hp
  simp only [insertStep, ht]
  simp only [Bool.false_eq_true, if_false]
  exact insertAL_ne_nil d _ _

theorem foldl_insertStep_ne_nil (ps : List (List Char × List Char)) :
    ∀ d, d ≠ [] → ps.foldl insertStep d ≠ [] := by
  induction ps with
  | nil => intro d h; simpa using h
  | cons p ps ih =>
    intro d h
    rw [List.foldl_cons]
    apply ih
    cases ht : (trimChars p.1).isEmpty with
    | false =>
      exact insertStep_ne_nil_of_tag d p
        (fun hc => by rw [hc] at ht; simp at ht)
    | true =>
      simp only [insertStep, ht, if_true]
      simpa using h

/-- Claim C2: load_templates fails with the parse error exactly when the
text contains no well-formed tag block (the regex embedded in findTags finds
no match), and otherwise returns the dict whose lookup at every key agrees
with the last matched block carrying that trimmed tag name, the values being
the trimmed inner texts — so the keys are exactly the trimmed tag names of
the matched blocks and duplicate tags resolve to the last occurrence. -/
theorem C2_load_templates (text : List Char) :
    (load_templates text = .error parseErrorMsg ↔ findTags text = []) ∧
    (∀ d, load_templates text = .ok d →
      ∀ k, lookupAL d k
        = lookupLast ((findTags text).map
            (fun p => (trimChars p.1, trimChars p.2))) k) := by
  have htags : ∀ p ∈ findTags text, trimChars p.1 ≠ [] := by
    intro p hp
    have hf := findTagsGo_tags text.length text p hp
    have hnws : ∀ c ∈ p.1, isWs c = false := fun c hc =>
      wordChar_not_ws c (hf.2 c hc)
    rw [trimChars_of_all_not_ws p.1 hnws]
    exact hf.1
  have hne : findTags text ≠ [] →
      ((findTags text).foldl insertStep []).isEmpty = false := by
    intro hft
    rcases hcase : findTags text with _ | ⟨p, ps⟩
    · exact absurd hcase hft
    · have hp1 : trimChars p.1 ≠ [] := htags p (by rw [hcase]; simp)
      have h1 : insertStep [] p ≠ [] := insertStep_ne_nil_of_tag [] p hp1
      have h2 := foldl_insertStep_ne_nil ps (insertStep [] p) h1
      rw [List.foldl_cons]
      cases hc2 : (ps.foldl insertStep (insertStep [] p)).isEmpty with
      | false => rfl
      | true => exact absurd (List.isEmpty_iff.mp hc2) h2
  constructor
  · constructor
    · intro he
      by_contra hft
      have hemp := hne hft
      simp only [load_templates] at he
      rw [hemp] at he
      simp at he
    · intro hft
      simp [load_templates, hft, insertStep]
  · intro d hd k
    have hd' : d = (findTags text).foldl insertStep [] := by
      simp only [load_templates] at hd
      split at hd
      · exact Except.noConfusion hd
      · injection hd with h'; exact h'.symm
    rw [hd', foldl_insertStep_lookup (findTags text) [] k htags]
    simp [lookupAL, Option.or_none]

theorem C2_load_templates_witness :
    load_templates ("<bug>A</bug><bug> B </bug>".toList)
      = .ok [("bug".toList, "B".toList)] ∧
    lookupAL [("bug".toList, "B".toList)] ("bug".toList)
      = lookupLast ((findTags ("<bug>A</bug><bug> B </bug>".toList)).map
          (fun p => (trimChars p.1, trimChars p.2))) ("bug".toList) := by
  have h := (C2_load_templates ("<bug>A</bug><bug> B </bug>".toList)).2
    [("bug".toList, "B".toList)] rfl
  exact ⟨rfl, h ("bug".toList)⟩

theorem C9_validation_guard_witness :
    generate_creation_prompt { sampleState with cardTypeVar := [] }
      = ({ sampleState with cardTypeVar := [] }, .warnNoType) ∧
    generate_creation_prompt { sampleState with cardTypeVar := "zzz".toList }
      = ({ sampleState with cardTypeVar := "zzz".toList }, .errTemplateNotFound) := by
  have h1 := (C9_validation_guard { sampleState with cardTypeVar := [] }).1
    (by decide)
  have h2 := (C9_validation_guard
    { sampleState with cardTypeVar := "zzz".toList }).2.1 (by decide) (by decide)
  exact ⟨h1, h2⟩

end CardsLLM
